import Mathlib

/-!
Shallow embedding of gdb/common/enum-flags.h (binutils-gdb).

The header defines a type-safe wrapper `enum_flags<E>` around a flags
enumeration `E`, plus global operator overloads for opted-in enums.
All runtime behavior is bitwise arithmetic on the underlying integer
representation.  We model enumeration values and underlying-type values
by their bit patterns as `Nat`; a value representable in the underlying
integer type of width `w` is a `Nat` strictly below `2 ^ w`.  One's
complement (`~`) on a `w`-bit value is XOR with the all-ones mask
`2 ^ w - 1`, which flips exactly the low `w` bits.
-/

/-- The `enum_flags<E>` wrapper class (enum-flags.h:80-153).  Its single
data member `m_enum_value` has the wrapped enum type; we model the stored
enum value by its bit pattern. -/
structure enum_flags where
  m_enum_value : Nat
deriving Repr, DecidableEq

/-- Constructor `enum_flags (enum_type e) : m_enum_value (e)`
(enum-flags.h:110-112): stores the enum value unchanged. -/
def enum_flags.ofEnum (e : Nat) : enum_flags :=
  ⟨e⟩

/-- Constructor `enum_flags (enum_flags::zero_type *zero)
: m_enum_value ((enum_type) 0)` (enum-flags.h:113-115): the only integer
literal that can bind to a `zero_type *` parameter is `0`, and the
constructor stores `(enum_type) 0`. -/
def enum_flags.ofZero : enum_flags :=
  ⟨0⟩

/-- Conversion `operator underlying_type () const { return m_enum_value; }`
(enum-flags.h:134-135): a const read of the stored bit pattern. -/
def enum_flags.toUnderlying (f : enum_flags) : Nat :=
  f.m_enum_value

/-- `raw () const { return m_enum_value; }` (enum-flags.h:138-139): a const
read of the stored value as the raw enum type. -/
def enum_flags.raw (f : enum_flags) : Nat :=
  f.m_enum_value

/-- `operator~ () const { return (enum_type) ~m_enum_value; }`
(enum-flags.h:146-147): one's complement of the underlying `w`-bit
representation, returned as a new `enum_flags` value. -/
def enum_flags.bnot (w : Nat) (f : enum_flags) : enum_flags :=
  ⟨f.m_enum_value ^^^ (2 ^ w - 1)⟩

/-- Member `operator&= (enum_flags e)` (enum-flags.h:117-121):
`m_enum_value = (enum_type) (m_enum_value & e.m_enum_value)`. -/
def enum_flags.and_assign (f e : enum_flags) : enum_flags :=
  ⟨f.m_enum_value &&& e.m_enum_value⟩

/-- Member `operator|= (enum_flags e)` (enum-flags.h:122-126):
`m_enum_value = (enum_type) (m_enum_value | e.m_enum_value)`. -/
def enum_flags.or_assign (f e : enum_flags) : enum_flags :=
  ⟨f.m_enum_value ||| e.m_enum_value⟩

/-- Member `operator^= (enum_flags e)` (enum-flags.h:127-131):
`m_enum_value = (enum_type) (m_enum_value ^ e.m_enum_value)`. -/
def enum_flags.xor_assign (f e : enum_flags) : enum_flags :=
  ⟨f.m_enum_value ^^^ e.m_enum_value⟩

/-! ### Global binary operators, `ENUM_FLAGS_GEN_BINOP` (enum-flags.h:159-204),
instantiated at `|`, `&`, `^` (enum-flags.h:248-250).

Each operator has four non-deleted shapes:
raw enum on both sides (returns the raw enum type), `enum_flags` on the
left, on the right, or on both sides (each returning the wrapper type,
built from the raw-enum result through the converting constructor). -/

/-- `operator| (enum_type e1, enum_type e2)`:
`(enum_type) (underlying (e1) | underlying (e2))`; returns raw enum. -/
def op_or_EE (e1 e2 : Nat) : Nat :=
  e1 ||| e2

/-- `operator| (enum_flags<enum_type> e1, enum_type e2) { return e1.raw () | e2; }`;
returns the wrapper type. -/
def op_or_FE (e1 : enum_flags) (e2 : Nat) : enum_flags :=
  enum_flags.ofEnum (op_or_EE e1.raw e2)

/-- `operator| (enum_type e1, enum_flags<enum_type> e2) { return e1 | e2.raw (); }`;
returns the wrapper type. -/
def op_or_EF (e1 : Nat) (e2 : enum_flags) : enum_flags :=
  enum_flags.ofEnum (op_or_EE e1 e2.raw)

/-- `operator| (enum_flags<enum_type> e1, enum_flags<enum_type> e2)
{ return e1.raw () | e2.raw (); }`; returns the wrapper type. -/
def op_or_FF (e1 e2 : enum_flags) : enum_flags :=
  enum_flags.ofEnum (op_or_EE e1.raw e2.raw)

/-- `operator& (enum_type e1, enum_type e2)`:
`(enum_type) (underlying (e1) & underlying (e2))`; returns raw enum. -/
def op_and_EE (e1 e2 : Nat) : Nat :=
  e1 &&& e2

/-- `operator& (enum_flags<enum_type> e1, enum_type e2)`; wrapper result. -/
def op_and_FE (e1 : enum_flags) (e2 : Nat) : enum_flags :=
  enum_flags.ofEnum (op_and_EE e1.raw e2)

/-- `operator& (enum_type e1, enum_flags<enum_type> e2)`; wrapper result. -/
def op_and_EF (e1 : Nat) (e2 : enum_flags) : enum_flags :=
  enum_flags.ofEnum (op_and_EE e1 e2.raw)

/-- `operator& (enum_flags<enum_type> e1, enum_flags<enum_type> e2)`;
wrapper result. -/
def op_and_FF (e1 e2 : enum_flags) : enum_flags :=
  enum_flags.ofEnum (op_and_EE e1.raw e2.raw)

/-- `operator^ (enum_type e1, enum_type e2)`:
`(enum_type) (underlying (e1) ^ underlying (e2))`; returns raw enum. -/
def op_xor_EE (e1 e2 : Nat) : Nat :=
  e1 ^^^ e2

/-- `operator^ (enum_flags<enum_type> e1, enum_type e2)`; wrapper result. -/
def op_xor_FE (e1 : enum_flags) (e2 : Nat) : enum_flags :=
  enum_flags.ofEnum (op_xor_EE e1.raw e2)

/-- `operator^ (enum_type e1, enum_flags<enum_type> e2)`; wrapper result. -/
def op_xor_EF (e1 : Nat) (e2 : enum_flags) : enum_flags :=
  enum_flags.ofEnum (op_xor_EE e1 e2.raw)

/-- `operator^ (enum_flags<enum_type> e1, enum_flags<enum_type> e2)`;
wrapper result. -/
def op_xor_FF (e1 e2 : enum_flags) : enum_flags :=
  enum_flags.ofEnum (op_xor_EE e1.raw e2.raw)

/-! ### Non-member compound assignment on raw enum variables,
`ENUM_FLAGS_GEN_COMPOUND_ASSIGN` (enum-flags.h:225-246), instantiated at
`|=`, `&=`, `^=` (enum-flags.h:252-254).  Each is `e1 = e1 OP e2`; we
model the value stored back into `e1`. -/

/-- `operator|= (enum_type &e1, const enum_type &e2) { return e1 = e1 | e2; }`. -/
def op_or_assign_E (e1 e2 : Nat) : Nat :=
  op_or_EE e1 e2

/-- `operator&= (enum_type &e1, const enum_type &e2) { return e1 = e1 & e2; }`. -/
def op_and_assign_E (e1 e2 : Nat) : Nat :=
  op_and_EE e1 e2

/-- `operator^= (enum_type &e1, const enum_type &e2) { return e1 = e1 ^ e2; }`. -/
def op_xor_assign_E (e1 e2 : Nat) : Nat :=
  op_xor_EE e1 e2

/-- Non-member `operator~ (enum_type e)` (enum-flags.h:258-264):
`(enum_type) ~underlying (e)`; one's complement on the `w`-bit underlying
representation, returned as the raw enum type. -/
def op_not_E (w : Nat) (e : Nat) : Nat :=
  e ^^^ (2 ^ w - 1)

/-- A bit pattern `v` is expressible as a bitwise OR of zero or more of the
wrapped enumeration's declared constants `consts` (repetition is harmless
since OR is idempotent). -/
def expressible (consts : List Nat) (v : Nat) : Prop :=
  ∃ l : List Nat, (∀ c ∈ l, c ∈ consts) ∧ l.foldr (· ||| ·) 0 = v

/-- Wrapper values reachable through the public operations of the header:
construction from a declared enumeration constant or from literal zero,
the binary OR/AND/XOR operators, the compound assignments, and `operator~`
on a `w`-bit underlying type.  The mixed wrapper/raw-enum operator shapes
and the non-member raw-enum operators produce exactly the same underlying
bit patterns as the wrapper/wrapper shapes composed with construction, so
closing over the wrapper/wrapper shapes covers all reachable patterns. -/
inductive Reachable (w : Nat) (consts : List Nat) : enum_flags → Prop where
  | ofConst {c : Nat} : c ∈ consts → Reachable w consts (enum_flags.ofEnum c)
  | ofZero : Reachable w consts enum_flags.ofZero
  | opOr {a b : enum_flags} : Reachable w consts a → Reachable w consts b →
      Reachable w consts (op_or_FF a b)
  | opAnd {a b : enum_flags} : Reachable w consts a → Reachable w consts b →
      Reachable w consts (op_and_FF a b)
  | opXor {a b : enum_flags} : Reachable w consts a → Reachable w consts b →
      Reachable w consts (op_xor_FF a b)
  | orAssign {a b : enum_flags} : Reachable w consts a → Reachable w consts b →
      Reachable w consts (a.or_assign b)
  | andAssign {a b : enum_flags} : Reachable w consts a → Reachable w consts b →
      Reachable w consts (a.and_assign b)
  | xorAssign {a b : enum_flags} : Reachable w consts a → Reachable w consts b →
      Reachable w consts (a.xor_assign b)
  | opNot {a : enum_flags} : Reachable w consts a →
      Reachable w consts (a.bnot w)

/-- Wrapper values reachable through the public operations other than
`operator~`: construction from a declared constant or from literal zero,
the binary OR/AND/XOR operators and the compound assignments. -/
inductive ReachableNoCompl (consts : List Nat) : enum_flags → Prop where
  | ofConst {c : Nat} : c ∈ consts → ReachableNoCompl consts (enum_flags.ofEnum c)
  | ofZero : ReachableNoCompl consts enum_flags.ofZero
  | opOr {a b : enum_flags} : ReachableNoCompl consts a → ReachableNoCompl consts b →
      ReachableNoCompl consts (op_or_FF a b)
  | opAnd {a b : enum_flags} : ReachableNoCompl consts a → ReachableNoCompl consts b →
      ReachableNoCompl consts (op_and_FF a b)
  | opXor {a b : enum_flags} : ReachableNoCompl consts a → ReachableNoCompl consts b →
      ReachableNoCompl consts (op_xor_FF a b)
  | orAssign {a b : enum_flags} : ReachableNoCompl consts a → ReachableNoCompl consts b →
      ReachableNoCompl consts (a.or_assign b)
  | andAssign {a b : enum_flags} : ReachableNoCompl consts a → ReachableNoCompl consts b →
      ReachableNoCompl consts (a.and_assign b)
  | xorAssign {a b : enum_flags} : ReachableNoCompl consts a → ReachableNoCompl consts b →
      ReachableNoCompl consts (a.xor_assign b)

/-! ### Theorems about the claims -/

/-- Bit `j` of a fold of ORs is set iff some list element has bit `j` set. -/
theorem testBit_foldr_lor (l : List Nat) (j : Nat) :
    (l.foldr (· ||| ·) 0).testBit j = l.any (fun c => c.testBit j) := by
  induction l with
  | nil => simp
  | cons c t ih => simp [Nat.testBit_or, ih]

/-- `x &&& m = x` says exactly that every set bit of `x` is set in `m`. -/
theorem and_mask_iff (x m : Nat) :
    x &&& m = x ↔ ∀ j, x.testBit j = true → m.testBit j = true := by
  constructor
  · intro h j hj
    have hbit := congrArg (fun t => t.testBit j) h
    simp only [Nat.testBit_and, hj, Bool.true_and] at hbit
    exact hbit
  · intro h
    apply Nat.eq_of_testBit_eq
    intro j
    simp only [Nat.testBit_and]
    cases hx : x.testBit j with
    | false => simp
    | true => simp [h j hx]

/-- Soundness half: an expressible value has all its bits inside the OR of
all declared constants. -/
theorem expressible_and_mask (consts : List Nat) (v : Nat)
    (h : expressible consts v) :
    v &&& consts.foldr (· ||| ·) 0 = v := by
  obtain ⟨l, hmem, hfold⟩ := h
  rw [and_mask_iff]
  intro j hj
  rw [testBit_foldr_lor]
  rw [← hfold, testBit_foldr_lor] at hj
  obtain ⟨c, hc, hcj⟩ := List.any_eq_true.mp hj
  exact List.any_eq_true.mpr ⟨c, hmem c hc, hcj⟩

/-- Completeness half: when every declared constant is a power of two, a
value whose bits all lie inside the OR of the constants is an OR of a
subset of the constants. -/
theorem expressible_of_and_mask (consts : List Nat)
    (hpow : ∀ c ∈ consts, ∃ k, c = 2 ^ k) (v : Nat)
    (h : v &&& consts.foldr (· ||| ·) 0 = v) :
    expressible consts v := by
  refine ⟨consts.filter (fun c => c &&& v != 0), ?_, ?_⟩
  · intro c hc
    exact (List.mem_filter.mp hc).1
  · apply Nat.eq_of_testBit_eq
    intro j
    rw [testBit_foldr_lor]
    cases hv : v.testBit j with
    | true =>
      have hm := (and_mask_iff v _).mp h j hv
      rw [testBit_foldr_lor] at hm
      obtain ⟨c, hc, hcj⟩ := List.any_eq_true.mp hm
      obtain ⟨k, rfl⟩ := hpow c hc
      have hkj : k = j := by
        by_contra hne
        rw [Nat.testBit_two_pow_of_ne hne] at hcj
        exact Bool.false_ne_true hcj
      subst hkj
      apply List.any_eq_true.mpr
      refine ⟨2 ^ k, List.mem_filter.mpr ⟨hc, ?_⟩, hcj⟩
      have hbit : (2 ^ k &&& v).testBit k = true := by
        simp [Nat.testBit_and, Nat.testBit_two_pow_self, hv]
      simp only [bne_iff_ne, ne_eq]
      intro hz
      rw [hz] at hbit
      simp at hbit
    | false =>
      apply Bool.eq_false_iff.mpr
      intro hany
      obtain ⟨c, hc, hcj⟩ := List.any_eq_true.mp hany
      obtain ⟨hcc, hcv⟩ := List.mem_filter.mp hc
      obtain ⟨k, rfl⟩ := hpow c hcc
      have hkj : k = j := by
        by_contra hne
        rw [Nat.testBit_two_pow_of_ne hne] at hcj
        exact Bool.false_ne_true hcj
      subst hkj
      have hnz : 2 ^ k &&& v ≠ 0 := by simpa using hcv
      obtain ⟨i, hi⟩ := Nat.ne_zero_implies_bit_true hnz
      rw [Nat.testBit_and, Nat.testBit_two_pow] at hi
      simp only [Bool.and_eq_true, decide_eq_true_eq] at hi
      obtain ⟨hik, hvi⟩ := hi
      subst hik
      rw [hv] at hvi
      exact Bool.false_ne_true hvi

/-- Closure: every value reachable without `operator~` keeps all its bits
inside the OR of the declared constants. -/
theorem reachableNoCompl_and_mask (consts : List Nat) (f : enum_flags)
    (h : ReachableNoCompl consts f) :
    f.m_enum_value &&& consts.foldr (· ||| ·) 0 = f.m_enum_value := by
  induction h with
  | ofConst hc =>
    rw [and_mask_iff]
    intro j hj
    rw [testBit_foldr_lor]
    exact List.any_eq_true.mpr ⟨_, hc, hj⟩
  | ofZero => simp [enum_flags.ofZero]
  | opOr ha hb iha ihb =>
    rename_i a b
    rw [and_mask_iff] at iha ihb ⊢
    intro j hj
    replace hj : (a.m_enum_value ||| b.m_enum_value).testBit j = true := hj
    rw [Nat.testBit_or] at hj
    cases h1 : a.m_enum_value.testBit j with
    | true => exact iha j h1
    | false =>
      rw [h1, Bool.false_or] at hj
      exact ihb j hj
  | opAnd ha hb iha ihb =>
    rename_i a b
    rw [and_mask_iff] at iha ⊢
    intro j hj
    replace hj : (a.m_enum_value &&& b.m_enum_value).testBit j = true := hj
    rw [Nat.testBit_and] at hj
    cases h1 : a.m_enum_value.testBit j with
    | true => exact iha j h1
    | false => rw [h1, Bool.false_and] at hj; exact absurd hj (by simp)
  | opXor ha hb iha ihb =>
    rename_i a b
    rw [and_mask_iff] at iha ihb ⊢
    intro j hj
    replace hj : (a.m_enum_value ^^^ b.m_enum_value).testBit j = true := hj
    rw [Nat.testBit_xor] at hj
    cases h1 : a.m_enum_value.testBit j with
    | true => exact iha j h1
    | false =>
      rw [h1, Bool.false_xor] at hj
      exact ihb j hj
  | orAssign ha hb iha ihb =>
    rename_i a b
    rw [and_mask_iff] at iha ihb ⊢
    intro j hj
    replace hj : (a.m_enum_value ||| b.m_enum_value).testBit j = true := hj
    rw [Nat.testBit_or] at hj
    cases h1 : a.m_enum_value.testBit j with
    | true => exact iha j h1
    | false =>
      rw [h1, Bool.false_or] at hj
      exact ihb j hj
  | andAssign ha hb iha ihb =>
    rename_i a b
    rw [and_mask_iff] at iha ⊢
    intro j hj
    replace hj : (a.m_enum_value &&& b.m_enum_value).testBit j = true := hj
    rw [Nat.testBit_and] at hj
    cases h1 : a.m_enum_value.testBit j with
    | true => exact iha j h1
    | false => rw [h1, Bool.false_and] at hj; exact absurd hj (by simp)
  | xorAssign ha hb iha ihb =>
    rename_i a b
    rw [and_mask_iff] at iha ihb ⊢
    intro j hj
    replace hj : (a.m_enum_value ^^^ b.m_enum_value).testBit j = true := hj
    rw [Nat.testBit_xor] at hj
    cases h1 : a.m_enum_value.testBit j with
    | true => exact iha j h1
    | false =>
      rw [h1, Bool.false_xor] at hj
      exact ihb j hj

/-- C1: for each of the three binary operators `|`, `&`, `^` and each of the
four operand shapes (wrapper, wrapper), (wrapper, enum), (enum, wrapper) and
(enum, enum) over the same wrapped enumeration, the result's underlying
integer equals the corresponding bitwise operation (OR, AND, XOR) applied
to the operands' underlying integer values.  The (enum, enum) shape is the
one whose Lean type returns a raw enum value (`Nat` bit pattern of the
enum); the other three return the wrapper type `enum_flags`. -/
theorem binop_underlying_correct (e1 e2 : Nat) (f1 f2 : enum_flags) :
    op_or_EE e1 e2 = (e1 ||| e2) ∧
    (op_or_FE f1 e2).toUnderlying = (f1.toUnderlying ||| e2) ∧
    (op_or_EF e1 f2).toUnderlying = (e1 ||| f2.toUnderlying) ∧
    (op_or_FF f1 f2).toUnderlying = (f1.toUnderlying ||| f2.toUnderlying) ∧
    op_and_EE e1 e2 = (e1 &&& e2) ∧
    (op_and_FE f1 e2).toUnderlying = (f1.toUnderlying &&& e2) ∧
    (op_and_EF e1 f2).toUnderlying = (e1 &&& f2.toUnderlying) ∧
    (op_and_FF f1 f2).toUnderlying = (f1.toUnderlying &&& f2.toUnderlying) ∧
    op_xor_EE e1 e2 = (e1 ^^^ e2) ∧
    (op_xor_FE f1 e2).toUnderlying = (f1.toUnderlying ^^^ e2) ∧
    (op_xor_EF e1 f2).toUnderlying = (e1 ^^^ f2.toUnderlying) ∧
    (op_xor_FF f1 f2).toUnderlying = (f1.toUnderlying ^^^ f2.toUnderlying) :=
  ⟨rfl, rfl, rfl, rfl, rfl, rfl, rfl, rfl, rfl, rfl, rfl, rfl⟩

/-- C3: compound assignment leaves the assigned variable with the same
underlying integer value as the non-assigning form `a = a OP b`, both for
the wrapper member operators and for the non-member raw-enum operators. -/
theorem compound_assign_equiv (a b : enum_flags) (e1 e2 : Nat) :
    (a.or_assign b).toUnderlying = (op_or_FF a b).toUnderlying ∧
    (a.and_assign b).toUnderlying = (op_and_FF a b).toUnderlying ∧
    (a.xor_assign b).toUnderlying = (op_xor_FF a b).toUnderlying ∧
    op_or_assign_E e1 e2 = op_or_EE e1 e2 ∧
    op_and_assign_E e1 e2 = op_and_EE e1 e2 ∧
    op_xor_assign_E e1 e2 = op_xor_EE e1 e2 :=
  ⟨rfl, rfl, rfl, rfl, rfl, rfl⟩

/-- C5: for every wrapper value representable in the `w`-bit underlying
type, applying `operator~` twice gives back a value with the same
underlying integer value: two one's complements cancel. -/
theorem bnot_involutive (w : Nat) (f : enum_flags)
    (h : f.m_enum_value < 2 ^ w) :
    ((f.bnot w).bnot w).toUnderlying = f.toUnderlying := by
  show (f.m_enum_value ^^^ (2 ^ w - 1)) ^^^ (2 ^ w - 1) = f.m_enum_value
  rw [Nat.xor_assoc, Nat.xor_self, Nat.xor_zero]

/-- Witness for C5 at `w = 8`, `f = enum_flags.ofEnum 2`. -/
theorem bnot_involutive_witness :
    (enum_flags.ofEnum 2).m_enum_value < 2 ^ 8 ∧
    (((enum_flags.ofEnum 2).bnot 8).bnot 8).toUnderlying
      = (enum_flags.ofEnum 2).toUnderlying :=
  ⟨by decide, bnot_involutive 8 (enum_flags.ofEnum 2) (by decide)⟩

/-- C6: constructing a wrapper from an enum value `e` stores `e` unchanged:
`raw ()` reads back exactly `e` and the conversion to the underlying type
reads back exactly the bit pattern of `e`.  Both reads are pure functions
of the wrapper value, so neither modifies the stored value. -/
theorem ofEnum_stores_unchanged (e : Nat) :
    (enum_flags.ofEnum e).raw = e ∧ (enum_flags.ofEnum e).toUnderlying = e :=
  ⟨rfl, rfl⟩

/-- C7: construction from the literal `0` (through the `zero_type *`
constructor) yields a wrapper whose underlying integer value is `0`. -/
theorem ofZero_is_zero : enum_flags.ofZero.toUnderlying = 0 :=
  rfl

/-- C9: for every wrapper value representable in the `w`-bit underlying
type, the bitwise AND of the value with its one's complement is the empty
flag set: `(f & ~f)` has underlying integer value `0`. -/
theorem and_bnot_eq_zero (w : Nat) (f : enum_flags)
    (h : f.m_enum_value < 2 ^ w) :
    (op_and_FF f (f.bnot w)).toUnderlying = 0 := by
  show f.m_enum_value &&& (f.m_enum_value ^^^ (2 ^ w - 1)) = 0
  apply Nat.eq_of_testBit_eq
  intro i
  simp only [Nat.testBit_and, Nat.testBit_xor, Nat.testBit_two_pow_sub_one,
    Nat.zero_testBit]
  by_cases hb : f.m_enum_value.testBit i
  · have hiw : i < w := by
      by_contra hge
      have hlt : f.m_enum_value < 2 ^ i :=
        lt_of_lt_of_le h (Nat.pow_le_pow_right (by norm_num) (Nat.le_of_not_lt hge))
      simp [Nat.testBit_lt_two_pow hlt] at hb
    simp [hb, hiw]
  · simp [hb]

/-- Witness for C9 at `w = 8`, `f = enum_flags.ofEnum 6`. -/
theorem and_bnot_eq_zero_witness :
    (enum_flags.ofEnum 6).m_enum_value < 2 ^ 8 ∧
    (op_and_FF (enum_flags.ofEnum 6) ((enum_flags.ofEnum 6).bnot 8)).toUnderlying = 0 :=
  ⟨by decide, and_bnot_eq_zero 8 (enum_flags.ofEnum 6) (by decide)⟩

/-- C4 counterexample: with the header's own example enumeration
`{flag_val1 = 2, flag_val2 = 4, flag_val3 = 8, flag_val4 = 16}` on an
8-bit underlying type, the value with bit pattern 253 is reachable by one
application of `operator~` to a wrapper constructed from `flag_val1`, yet
253 (which has bit 0 set) is not a bitwise OR of any collection of the
declared constants, so the claim as stated is false. -/
theorem reachable_value_not_expressible :
    Reachable 8 [2, 4, 8, 16] (enum_flags.ofEnum 253) ∧
    ¬ expressible [2, 4, 8, 16] 253 := by
  constructor
  · have h2 : Reachable 8 [2, 4, 8, 16] (enum_flags.ofEnum 2) :=
      Reachable.ofConst (by simp)
    have heq : (enum_flags.ofEnum 2).bnot 8 = enum_flags.ofEnum 253 := by decide
    exact heq ▸ Reachable.opNot h2
  · intro hexp
    exact absurd (expressible_and_mask [2, 4, 8, 16] 253 hexp) (by decide)

/-- C4 (amended): if every declared constant of the wrapped enumeration is
a power of two (the convention stated by the spec's data model), then every
flags value reachable through construction from a declared constant or from
literal zero, the binary OR/AND/XOR operators and the compound assignments
— all public operations except `operator~` — has a bit pattern expressible
as a bitwise OR of zero or more declared constants.  (`operator~` breaks
the invariant, as the counterexample shows.) -/
theorem reachableNoCompl_expressible (consts : List Nat)
    (hpow : ∀ c ∈ consts, ∃ k, c = 2 ^ k) (f : enum_flags)
    (h : ReachableNoCompl consts f) :
    expressible consts f.m_enum_value :=
  expressible_of_and_mask consts hpow f.m_enum_value
    (reachableNoCompl_and_mask consts f h)

/-- Witness for the amended C4, at the header's example constants and the
value `flag_val1 | flag_val2` (bit pattern 6). -/
theorem reachableNoCompl_expressible_witness :
    (∀ c ∈ ([2, 4, 8, 16] : List Nat), ∃ k, c = 2 ^ k) ∧
    expressible [2, 4, 8, 16]
      (op_or_FF (enum_flags.ofEnum 2) (enum_flags.ofEnum 4)).m_enum_value := by
  have hpow : ∀ c ∈ ([2, 4, 8, 16] : List Nat), ∃ k, c = 2 ^ k := by
    intro c hc
    simp only [List.mem_cons, List.not_mem_nil, or_false] at hc
    rcases hc with rfl | rfl | rfl | rfl
    · exact ⟨1, rfl⟩
    · exact ⟨2, rfl⟩
    · exact ⟨3, rfl⟩
    · exact ⟨4, rfl⟩
  refine ⟨hpow, reachableNoCompl_expressible [2, 4, 8, 16] hpow _ ?_⟩
  exact ReachableNoCompl.opOr (ReachableNoCompl.ofConst (by simp))
    (ReachableNoCompl.ofConst (by simp))
